import Mathlib

/-!
Verification of the index/axis/convolution core of the signal_lab repository
(`src/app.py` and `src/signallab/plotting.py`).

Samples are modelled as exact rationals (the sources use double-precision
floats only through elementwise products and sums of small educational
inputs; the index arithmetic under verification is exact integer
arithmetic).  Python integers are modelled as `ℤ`, sample arrays as
`List ℚ`, and `np.arange` index vectors as `List ℤ`.
-/

namespace SignalLab

/-- A parsed signal: a finite sample array together with its starting time
index, as produced by the input widgets in `src/app.py` (`x`/`start_x`,
`h`/`start_h`). -/
structure Signal where
  values : List ℚ
  start : ℤ
  deriving Repr, DecidableEq

/-- `np.arange(a, b)` for integer bounds: the integers `a, a+1, …, b-1`
(empty when `b ≤ a`).  Used in `src/app.py` for `n_x` (line 62), `n_h0`
(line 110) and `global_ticks` (line 127). -/
def arangeZ (a b : ℤ) : List ℤ :=
  (List.range (b - a).toNat).map (fun k : ℕ => a + (k : ℤ))

/-- `n_x = np.arange(start_x, start_x + len(x))` (`src/app.py` line 62). -/
def n_x (start_x : ℤ) (x : List ℚ) : List ℤ :=
  arangeZ start_x (start_x + x.length)

/-- `n_h0 = np.arange(start_h, start_h + len(h))` (`src/app.py` line 110). -/
def n_h0 (start_h : ℤ) (h : List ℚ) : List ℤ :=
  arangeZ start_h (start_h + h.length)

/-- The per-signal axis plan of `src/app.py` lines 62–66 (and 110–114):
ticks `np.arange(start, start + len)` and x-limits
`(start - 2, start + len + 2)`. -/
def planSingleAxis (vals : List ℚ) (start : ℤ) : List ℤ × (ℤ × ℤ) :=
  (arangeZ start (start + vals.length), (start - 2, start + vals.length + 2))

/-- `start_y = start_x + start_h` (`src/app.py` line 121). -/
def start_y (start_x start_h : ℤ) : ℤ := start_x + start_h

/-- `end_y = start_y + (len(x) + len(h) - 2)` (`src/app.py` line 122). -/
def end_y (x h : List ℚ) (start_x start_h : ℤ) : ℤ :=
  start_y start_x start_h + ((x.length : ℤ) + (h.length : ℤ) - 2)

/-- `global_min = min(start_x, start_h, start_y)` (`src/app.py` line 125). -/
def globalMin (start_x start_h : ℤ) : ℤ :=
  min start_x (min start_h (start_y start_x start_h))

/-- `global_max = max(start_x + len(x) - 1, start_h + len(h) - 1, end_y)`
(`src/app.py` line 126). -/
def globalMax (x h : List ℚ) (start_x start_h : ℤ) : ℤ :=
  max (start_x + (x.length : ℤ) - 1)
    (max (start_h + (h.length : ℤ) - 1) (end_y x h start_x start_h))

/-- `global_ticks = np.arange(global_min, global_max + 1)`
(`src/app.py` line 127). -/
def globalTicks (x h : List ℚ) (start_x start_h : ℤ) : List ℤ :=
  arangeZ (globalMin start_x start_h) (globalMax x h start_x start_h + 1)

/-- `global_xlim = (global_min - 2, global_max + 2)` (`src/app.py` line 128). -/
def globalXlim (x h : List ℚ) (start_x start_h : ℤ) : ℤ × ℤ :=
  (globalMin start_x start_h - 2, globalMax x h start_x start_h + 2)

/-- The decomposition loop of `src/app.py` lines 75–89: for each `i` in
`n_x` it reads the coefficient `x[i - start_x]` and emits the impulse
component `(i, x[i - start_x])`. -/
def decompose (x : List ℚ) (start_x : ℤ) : List (ℤ × ℚ) :=
  (n_x start_x x).map (fun i => (i, x.getD (i - start_x).toNat 0))

/-- One iteration of the loop in `plot_shifted_impulse_responses`
(`src/signallab/plotting.py` lines 87–106): for an impulse component
`(i, c)` the plotted sequence is `c * h` placed at indices
`n_h0 + i`, i.e. a signal with values `c • h` starting at `start_h + i`. -/
def shiftAndScale (h : List ℚ) (start_h : ℤ) (comp : ℤ × ℚ) : Signal :=
  { values := h.map (fun v => comp.2 * v), start := start_h + comp.1 }

/-- The sample of the full linear convolution at output position `n`
(0-based), as computed by `np.convolve(x, h)`
(`src/signallab/plotting.py` line 126): the sum of `x[k] * h[n-k]` over
the positions `k` of `x` where `h[n-k]` exists. -/
def convAt (x h : List ℚ) (n : ℕ) : ℚ :=
  ∑ k in Finset.range x.length,
    if k ≤ n ∧ n - k < h.length then x.getD k 0 * h.getD (n - k) 0 else 0

/-- `np.convolve(x, h)` (full mode): the array of length
`len(x) + len(h) - 1` of convolution samples. -/
def npConvolve (x h : List ℚ) : List ℚ :=
  (List.range (x.length + h.length - 1)).map (convAt x h)

/-- `plot_convolution_result` (`src/signallab/plotting.py` lines 109–134):
the result signal is `np.convolve(x, h)` placed at starting index
`start_y = start_x + start_h`. -/
def convolve (x h : List ℚ) (start_x start_h : ℤ) : Signal :=
  { values := npConvolve x h, start := start_x + start_h }

/-- The value a signal contributes at global time index `n` when zero-padded
onto a common axis: its sample at position `n - start` when `n` lies in the
signal's span, and `0` otherwise. -/
def sampleAt (s : Signal) (n : ℤ) : ℚ :=
  if s.start ≤ n ∧ n < s.start + s.values.length
  then s.values.getD (n - s.start).toNat 0 else 0

/-- The spec's convolution formula (§4.2): `y[n] = Σ_k x[k] · h[n-k]` over
valid overlapping indices, written as a zero-padded sum over
`k = 0, …, n`. -/
def convSpecAt (x h : List ℚ) (n : ℕ) : ℚ :=
  ∑ k in Finset.range (n + 1), x.getD k 0 * h.getD (n - k) 0

/- ### Model of the input parsing (`np.fromstring`, `src/app.py` lines 50–53
and 98–101) -/

/-- Split a character list at commas; `splitOnComma []` is `[[]]`, matching
`"".split(",")`-style field splitting. -/
def splitOnComma : List Char → List (List Char)
  | [] => [[]]
  | c :: cs =>
      let r := splitOnComma cs
      if c = ',' then [] :: r
      else
        match r with
        | [] => [[c]]
        | t :: ts => (c :: t) :: ts

/-- The natural number denoted by a run of decimal digits. -/
def digitsVal (cs : List Char) : ℕ :=
  cs.foldl (fun acc ch => 10 * acc + (ch.toNat - 48)) 0

/-- Parse an unsigned decimal token (`digits`, `digits.digits`, `digits.`
or `.digits`); `none` when the token is empty or contains a non-numeric
character. -/
def parseUnsigned (cs : List Char) : Option ℚ :=
  let intPart := cs.takeWhile Char.isDigit
  let rest := cs.dropWhile Char.isDigit
  match rest with
  | [] => if intPart.isEmpty then none else some ((digitsVal intPart : ℚ))
  | c :: frac =>
      if c = '.' ∧ frac.all Char.isDigit ∧ (intPart ≠ [] ∨ frac ≠ []) then
        some ((digitsVal intPart : ℚ)
          + (digitsVal frac : ℚ) / (10 : ℚ) ^ frac.length)
      else none

/-- Parse one comma-separated token, allowing a leading sign. -/
def parseTokenChars (cs : List Char) : Option ℚ :=
  match cs with
  | [] => none
  | c :: rest =>
      if c = '-' then (parseUnsigned rest).map (fun q => -q)
      else if c = '+' then parseUnsigned rest
      else parseUnsigned cs

/-- Keep the successfully parsed prefix of the token list, stopping
silently at the first malformed token. -/
def takeParsed : List (Option ℚ) → List ℚ
  | [] => []
  | none :: _ => []
  | some q :: rest => q :: takeParsed rest

/-- Model of `np.fromstring(text, sep=",")` as called on the raw widget
text in `src/app.py` lines 50–53 (for `x`) and 98–101 (for `h`): legacy
NumPy `fromstring` parses comma-separated numeric tokens greedily, stops
silently at the first malformed token, and returns the successfully
parsed prefix — possibly empty — without raising any exception (spec §9
records the observed source behavior: a blank string parses to an empty
numeric sequence without raising).  Whitespace trimming and exponent
notation are omitted; no input considered here uses them. -/
def fromstring (text : String) : List ℚ :=
  takeParsed ((splitOnComma text.toList).map parseTokenChars)

/- ### Basic lemmas on the embedded operations -/

theorem arangeZ_length (a b : ℤ) : (arangeZ a b).length = (b - a).toNat := by
  rw [arangeZ, List.length_map, List.length_range]

theorem mem_arangeZ {a b n : ℤ} : n ∈ arangeZ a b ↔ a ≤ n ∧ n < b := by
  simp only [arangeZ, List.mem_map, List.mem_range]
  constructor
  · rintro ⟨k, hk, rfl⟩
    omega
  · rintro ⟨h1, h2⟩
    exact ⟨(n - a).toNat, by omega, by omega⟩

theorem arangeZ_getElem? (a b : ℤ) (k : ℕ) (hk : k < (b - a).toNat) :
    (arangeZ a b)[k]? = some (a + k) := by
  rw [arangeZ, List.getElem?_map, List.getElem?_range hk]
  rfl

theorem decompose_length (x : List ℚ) (sx : ℤ) :
    (decompose x sx).length = x.length := by
  rw [decompose, List.length_map, n_x, arangeZ_length]
  omega

theorem decompose_getD (x : List ℚ) (sx : ℤ) (k : ℕ) (hk : k < x.length) :
    (decompose x sx).getD k (0, 0) = (sx + k, x.getD k 0) := by
  have hlen : k < (sx + (x.length : ℤ) - sx).toNat := by omega
  rw [decompose, n_x, List.getD_eq_getElem?_getD, List.getElem?_map,
    arangeZ_getElem? _ _ _ hlen]
  have h2 : (sx + (k : ℤ) - sx).toNat = k := by omega
  simp [h2]

theorem npConvolve_length (x h : List ℚ) :
    (npConvolve x h).length = x.length + h.length - 1 := by
  rw [npConvolve, List.length_map, List.length_range]

theorem npConvolve_getD (x h : List ℚ) (n : ℕ)
    (hn : n < x.length + h.length - 1) :
    (npConvolve x h).getD n 0 = convAt x h n := by
  rw [npConvolve, List.getD_eq_getElem?_getD, List.getElem?_map,
    List.getElem?_range hn]
  rfl

theorem convAt_eq_sum (x h : List ℚ) (n N : ℕ) (hNx : x.length ≤ N) :
    convAt x h n
      = ∑ k in Finset.range N,
          if k ≤ n then x.getD k 0 * h.getD (n - k) 0 else 0 := by
  rw [convAt, ← Finset.sum_subset (Finset.range_subset.mpr hNx)]
  · refine Finset.sum_congr rfl (fun k hk => ?_)
    by_cases h1 : k ≤ n
    · by_cases h2 : n - k < h.length
      · rw [if_pos ⟨h1, h2⟩, if_pos h1]
      · rw [if_neg (fun hc => h2 hc.2), if_pos h1,
          List.getD_eq_default h 0 (by omega), mul_zero]
    · rw [if_neg (fun hc => h1 hc.1), if_neg h1]
  · intro k _ hk
    rw [Finset.mem_range, not_lt] at hk
    by_cases h1 : k ≤ n
    · rw [if_pos h1, List.getD_eq_default x 0 hk, zero_mul]
    · rw [if_neg h1]

theorem convSpecAt_eq_sum (x h : List ℚ) (n N : ℕ) (hNn : n + 1 ≤ N) :
    convSpecAt x h n
      = ∑ k in Finset.range N,
          if k ≤ n then x.getD k 0 * h.getD (n - k) 0 else 0 := by
  rw [convSpecAt, ← Finset.sum_subset (Finset.range_subset.mpr hNn)]
  · refine Finset.sum_congr rfl (fun k hk => ?_)
    rw [Finset.mem_range] at hk
    rw [if_pos (by omega)]
  · intro k _ hk
    rw [Finset.mem_range, not_lt] at hk
    rw [if_neg (by omega)]

theorem convAt_eq_convSpecAt (x h : List ℚ) (n : ℕ) :
    convAt x h n = convSpecAt x h n := by
  rw [convAt_eq_sum x h n (max x.length (n + 1)) (le_max_left _ _),
    convSpecAt_eq_sum x h n (max x.length (n + 1)) (le_max_right _ _)]

theorem convSpecAt_comm (x h : List ℚ) (n : ℕ) :
    convSpecAt x h n = convSpecAt h x n := by
  rw [convSpecAt, convSpecAt, ← Finset.sum_range_reflect]
  refine Finset.sum_congr rfl (fun k hk => ?_)
  rw [Finset.mem_range] at hk
  have h1 : n + 1 - 1 - k = n - k := by omega
  have h2 : n - (n - k) = k := by omega
  rw [h1, h2, mul_comm]

theorem npConvolve_comm (x h : List ℚ) : npConvolve x h = npConvolve h x := by
  rw [npConvolve, npConvolve]
  have hlen : x.length + h.length - 1 = h.length + x.length - 1 := by omega
  rw [hlen]
  refine List.map_congr_left (fun n _ => ?_)
  rw [convAt_eq_convSpecAt, convAt_eq_convSpecAt, convSpecAt_comm]

theorem list_sum_map_eq_sum_range {α : Type} (L : List α) (d : α) (f : α → ℚ) :
    (L.map f).sum = ∑ k in Finset.range L.length, f (L.getD k d) := by
  induction L with
  | nil => simp
  | cons a L ih =>
    rw [List.map_cons, List.sum_cons, List.length_cons, Finset.sum_range_succ']
    simp only [List.getD_cons_succ, List.getD_cons_zero]
    rw [ih, add_comm]

theorem getD_map_mul (c : ℚ) (h : List ℚ) (m : ℕ) :
    (h.map (fun v => c * v)).getD m 0 = c * h.getD m 0 := by
  nth_rewrite 1 [show (0 : ℚ) = c * 0 from (mul_zero c).symm]
  exact List.getD_map h 0 (fun v => c * v)

theorem sampleAt_shiftAndScale (h : List ℚ) (sh : ℤ) (i : ℤ) (c : ℚ) (n : ℤ) :
    sampleAt (shiftAndScale h sh (i, c)) n
      = if sh + i ≤ n ∧ n < sh + i + (h.length : ℤ)
        then c * h.getD (n - (sh + i)).toNat 0 else 0 := by
  simp only [sampleAt, shiftAndScale, List.length_map]
  split_ifs with hc
  · exact getD_map_mul c h _
  · rfl

/-- Pointwise form of the consistency law: at every global time index `n`,
the zero-padded shifted-and-scaled responses sum to the zero-padded
convolution result. -/
theorem shifted_sum_eq_conv (x h : List ℚ) (sx sh : ℤ)
    (hx : 0 < x.length) (hh : 0 < h.length) (n : ℤ) :
    ((decompose x sx).map (fun comp => sampleAt (shiftAndScale h sh comp) n)).sum
      = sampleAt (convolve x h sx sh) n := by
  have hL : ((decompose x sx).map
        (fun comp => sampleAt (shiftAndScale h sh comp) n)).sum
      = ∑ k in Finset.range x.length,
          if sh + (sx + (k : ℤ)) ≤ n ∧ n < sh + (sx + (k : ℤ)) + (h.length : ℤ)
          then x.getD k 0 * h.getD (n - (sh + (sx + (k : ℤ)))).toNat 0 else 0 := by
    rw [list_sum_map_eq_sum_range (decompose x sx) (0, 0), decompose_length]
    refine Finset.sum_congr rfl (fun k hk => ?_)
    rw [Finset.mem_range] at hk
    rw [decompose_getD x sx k hk, sampleAt_shiftAndScale]
  rw [hL]
  simp only [convolve, sampleAt, npConvolve_length]
  split_ifs with hm
  · rw [npConvolve_getD x h _ (by omega), convAt]
    refine Finset.sum_congr rfl (fun k hk => ?_)
    rw [Finset.mem_range] at hk
    by_cases hc : sh + (sx + (k : ℤ)) ≤ n ∧ n < sh + (sx + (k : ℤ)) + (h.length : ℤ)
    · rw [if_pos hc, if_pos (show k ≤ (n - (sx + sh)).toNat
        ∧ (n - (sx + sh)).toNat - k < h.length by omega)]
      have harg : (n - (sh + (sx + (k : ℤ)))).toNat = (n - (sx + sh)).toNat - k := by
        omega
      rw [harg]
    · rw [if_neg hc, if_neg (show ¬(k ≤ (n - (sx + sh)).toNat
        ∧ (n - (sx + sh)).toNat - k < h.length) by omega)]
  · refine Finset.sum_eq_zero (fun k hk => ?_)
    rw [Finset.mem_range] at hk
    rw [if_neg (show ¬(sh + (sx + (k : ℤ)) ≤ n
        ∧ n < sh + (sx + (k : ℤ)) + (h.length : ℤ)) by omega)]

/- ### The claims -/

/-- Claim C1: consistency law — for every non-empty `x` and `h` with
arbitrary integer start indices, the pointwise sum of all shifted-and-
scaled responses (each zero-padded onto the global axis) equals the
convolution result sample-for-sample at every index of the global
axis. -/
theorem C1_consistency (x h : List ℚ) (sx sh : ℤ)
    (hx : 0 < x.length) (hh : 0 < h.length) :
    ∀ n ∈ globalTicks x h sx sh,
      ((decompose x sx).map
          (fun comp => sampleAt (shiftAndScale h sh comp) n)).sum
        = sampleAt (convolve x h sx sh) n :=
  fun n _ => shifted_sum_eq_conv x h sx sh hx hh n

/-- Witness for C1 at `x = [1,2,1]`, `h = [1,1]`, both starting at 0,
checked at global axis index 2. -/
theorem C1_consistency_witness :
    0 < ([1, 2, 1] : List ℚ).length ∧ 0 < ([1, 1] : List ℚ).length
      ∧ ((decompose [1, 2, 1] 0).map
          (fun comp => sampleAt (shiftAndScale [1, 1] 0 comp) 2)).sum
        = sampleAt (convolve [1, 2, 1] [1, 1] 0 0) 2 :=
  ⟨by decide, by decide,
    C1_consistency [1, 2, 1] [1, 1] 0 0 (by decide) (by decide) 2 (by decide)⟩

/-- Claim C2: `convolve` returns the full, non-circular linear
convolution — samples `y[n] = Σ_k x[k]·h[n-k]` for
`n ∈ 0..len(x)+len(h)-2`, length `len(x)+len(h)-1` and starting index
`start_x + start_h`. -/
theorem C2_convolve_correct (x h : List ℚ) (sx sh : ℤ)
    (_hx : 0 < x.length) (_hh : 0 < h.length) :
    (convolve x h sx sh).start = sx + sh
      ∧ (convolve x h sx sh).values.length = x.length + h.length - 1
      ∧ ∀ n < x.length + h.length - 1,
          (convolve x h sx sh).values.getD n 0 = convSpecAt x h n := by
  refine ⟨rfl, npConvolve_length x h, fun n hn => ?_⟩
  exact (npConvolve_getD x h n hn).trans (convAt_eq_convSpecAt x h n)

/-- Witness for C2 at the general case `x = [1,2,1]`, `h = [1,1]`. -/
theorem C2_convolve_correct_witness :
    0 < ([1, 2, 1] : List ℚ).length ∧ 0 < ([1, 1] : List ℚ).length
      ∧ ((convolve [1, 2, 1] [1, 1] 0 0).start = (0 : ℤ) + 0
        ∧ (convolve [1, 2, 1] [1, 1] 0 0).values.length
            = ([1, 2, 1] : List ℚ).length + ([1, 1] : List ℚ).length - 1
        ∧ ∀ n < ([1, 2, 1] : List ℚ).length + ([1, 1] : List ℚ).length - 1,
            (convolve [1, 2, 1] [1, 1] 0 0).values.getD n 0
              = convSpecAt [1, 2, 1] [1, 1] n) :=
  ⟨by decide, by decide,
    C2_convolve_correct [1, 2, 1] [1, 1] 0 0 (by decide) (by decide)⟩

/-- Claim C3 (refuting evidence): the source parses raw signal text with
legacy `np.fromstring`, which raises nothing — malformed input such as
`"a,b"` or `"1,,2"` and the empty string silently yield empty or
truncated sequences that then flow into `n_x` and the axis planner as if
they were valid signals; no `ParseError` or `DegenerateInputError`
exists anywhere in the source. -/
theorem C3_parse_silently_degrades :
    fromstring "a,b" = [] ∧ fromstring "1,,2" = [1] ∧ fromstring "" = []
      ∧ n_x 0 (fromstring "a,b") = []
      ∧ planSingleAxis (fromstring "") 0 = ([], (-2, 2)) := by
  decide

/-- Claim C4: `shiftAndScale` places the scaled copy of `h` at starting
index `start_h + i` (not `i` minus `start_h`) with samples `c·h[k]`; in
the shift case `x = [1]` starting at 2 with `h = [1,2,1]` starting at 0,
the single shifted response and the convolution result both equal
`[1,2,1]` starting at index 2. -/
theorem C4_shiftAndScale_correct :
    (∀ (h : List ℚ) (sh i : ℤ) (c : ℚ),
        (shiftAndScale h sh (i, c)).start = sh + i
          ∧ ∀ k : ℕ, (shiftAndScale h sh (i, c)).values.getD k 0
              = c * h.getD k 0)
      ∧ decompose [1] 2 = [(2, 1)]
      ∧ shiftAndScale [1, 2, 1] 0 (2, 1) = ⟨[1, 2, 1], 2⟩
      ∧ convolve [1] [1, 2, 1] 2 0 = ⟨[1, 2, 1], 2⟩ :=
  ⟨fun h sh i c => ⟨rfl, fun k => getD_map_mul c h k⟩,
    by decide,
    by norm_num [shiftAndScale],
    by norm_num [convolve, npConvolve, convAt, List.range_succ,
      Finset.sum_range_succ]⟩

/-- Claim C5: the global axis satisfies the exact min/max equalities, its
tick set is the contiguous integer range `[global_min, global_max]`, its
x-limits are `(global_min - 2, global_max + 2)`, and the x span, h span
and convolution span all lie within `[global_min, global_max]`. -/
theorem C5_global_axis (x h : List ℚ) (sx sh : ℤ)
    (_hx : 0 < x.length) (_hh : 0 < h.length) :
    globalMin sx sh = min sx (min sh (start_y sx sh))
      ∧ globalMax x h sx sh
          = max (sx + (x.length : ℤ) - 1)
              (max (sh + (h.length : ℤ) - 1) (end_y x h sx sh))
      ∧ (∀ n : ℤ, n ∈ globalTicks x h sx sh
            ↔ globalMin sx sh ≤ n ∧ n ≤ globalMax x h sx sh)
      ∧ globalXlim x h sx sh = (globalMin sx sh - 2, globalMax x h sx sh + 2)
      ∧ (∀ n : ℤ,
          (sx ≤ n ∧ n ≤ sx + (x.length : ℤ) - 1)
            ∨ (sh ≤ n ∧ n ≤ sh + (h.length : ℤ) - 1)
            ∨ (start_y sx sh ≤ n ∧ n ≤ end_y x h sx sh)
          → globalMin sx sh ≤ n ∧ n ≤ globalMax x h sx sh) := by
  refine ⟨rfl, rfl, fun n => ?_, rfl, fun n hn => ?_⟩
  · rw [globalTicks, mem_arangeZ]
    omega
  · simp only [globalMin, globalMax, start_y, end_y] at hn ⊢
    omega

/-- Witness for C5 at `x = [1, 2]` starting at -1 and `h = [1, 1, 1]`
starting at 2. -/
theorem C5_global_axis_witness :
    0 < ([1, 2] : List ℚ).length ∧ 0 < ([1, 1, 1] : List ℚ).length
      ∧ (globalMin (-1) 2 = min (-1) (min 2 (start_y (-1) 2))
        ∧ globalMax [1, 2] [1, 1, 1] (-1) 2
            = max ((-1) + (([1, 2] : List ℚ).length : ℤ) - 1)
                (max (2 + (([1, 1, 1] : List ℚ).length : ℤ) - 1)
                  (end_y [1, 2] [1, 1, 1] (-1) 2))
        ∧ (∀ n : ℤ, n ∈ globalTicks [1, 2] [1, 1, 1] (-1) 2
              ↔ globalMin (-1) 2 ≤ n ∧ n ≤ globalMax [1, 2] [1, 1, 1] (-1) 2)
        ∧ globalXlim [1, 2] [1, 1, 1] (-1) 2
            = (globalMin (-1) 2 - 2, globalMax [1, 2] [1, 1, 1] (-1) 2 + 2)
        ∧ (∀ n : ℤ,
            ((-1) ≤ n ∧ n ≤ (-1) + (([1, 2] : List ℚ).length : ℤ) - 1)
              ∨ (2 ≤ n ∧ n ≤ 2 + (([1, 1, 1] : List ℚ).length : ℤ) - 1)
              ∨ (start_y (-1) 2 ≤ n ∧ n ≤ end_y [1, 2] [1, 1, 1] (-1) 2)
            → globalMin (-1) 2 ≤ n
                ∧ n ≤ globalMax [1, 2] [1, 1, 1] (-1) 2)) :=
  ⟨by decide, by decide,
    C5_global_axis [1, 2] [1, 1, 1] (-1) 2 (by decide) (by decide)⟩

/-- Claim C6: `decompose` produces exactly `len(x)` impulse components,
in strictly increasing time-index order, the `k`-th being
`(start_x + k, x[k])`. -/
theorem C6_decompose (x : List ℚ) (sx : ℤ) (_hx : 0 < x.length) :
    (decompose x sx).length = x.length
      ∧ (∀ k < x.length,
          (decompose x sx).getD k (0, 0) = (sx + k, x.getD k 0))
      ∧ ∀ j k, j < k → k < x.length →
          ((decompose x sx).getD j (0, 0)).1
            < ((decompose x sx).getD k (0, 0)).1 := by
  refine ⟨decompose_length x sx, fun k hk => decompose_getD x sx k hk,
    fun j k hjk hk => ?_⟩
  rw [decompose_getD x sx j (by omega), decompose_getD x sx k hk]
  show sx + (j : ℤ) < sx + (k : ℤ)
  omega

/-- Witness for C6 at `x = [5, 7, 9]` starting at -3. -/
theorem C6_decompose_witness :
    0 < ([5, 7, 9] : List ℚ).length
      ∧ ((decompose [5, 7, 9] (-3)).length = ([5, 7, 9] : List ℚ).length
        ∧ (∀ k < ([5, 7, 9] : List ℚ).length,
            (decompose [5, 7, 9] (-3)).getD k (0, 0)
              = ((-3 : ℤ) + k, ([5, 7, 9] : List ℚ).getD k 0))
        ∧ ∀ j k, j < k → k < ([5, 7, 9] : List ℚ).length →
            ((decompose [5, 7, 9] (-3)).getD j (0, 0)).1
              < ((decompose [5, 7, 9] (-3)).getD k (0, 0)).1) :=
  ⟨by decide, C6_decompose [5, 7, 9] (-3) (by decide)⟩

/-- Claim C7: convolution is commutative in the source's sense — the two
results hold the same sample array and both start at `sx + sh`. -/
theorem C7_convolve_comm (x h : List ℚ) (sx sh : ℤ)
    (_hx : 0 < x.length) (_hh : 0 < h.length) :
    (convolve x h sx sh).values = (convolve h x sh sx).values
      ∧ (convolve x h sx sh).start = sx + sh
      ∧ (convolve h x sh sx).start = sx + sh :=
  ⟨npConvolve_comm x h, rfl, add_comm sh sx⟩

/-- Witness for C7 at `x = [1, 2, 1]` starting at 1 and `h = [3, 4]`
starting at -2. -/
theorem C7_convolve_comm_witness :
    0 < ([1, 2, 1] : List ℚ).length ∧ 0 < ([3, 4] : List ℚ).length
      ∧ ((convolve [1, 2, 1] [3, 4] 1 (-2)).values
            = (convolve [3, 4] [1, 2, 1] (-2) 1).values
        ∧ (convolve [1, 2, 1] [3, 4] 1 (-2)).start = 1 + (-2)
        ∧ (convolve [3, 4] [1, 2, 1] (-2) 1).start = 1 + (-2)) :=
  ⟨by decide, by decide,
    C7_convolve_comm [1, 2, 1] [3, 4] 1 (-2) (by decide) (by decide)⟩

/-- Claim C8: the single-signal axis plan — ticks are exactly the
contiguous integer range `[start, start+len-1]` and the x-limits are
`(start - 2, start + len + 2)`, a fixed padding of 2 on each side. -/
theorem C8_planSingleAxis (vals : List ℚ) (start : ℤ) (_hv : 0 < vals.length) :
    (∀ n : ℤ, n ∈ (planSingleAxis vals start).1
        ↔ start ≤ n ∧ n ≤ start + (vals.length : ℤ) - 1)
      ∧ (planSingleAxis vals start).2
          = (start - 2, start + (vals.length : ℤ) + 2) := by
  refine ⟨fun n => ?_, rfl⟩
  show n ∈ arangeZ start (start + (vals.length : ℤ)) ↔ _
  rw [mem_arangeZ]
  omega

/-- Witness for C8 at `vals = [4, 5, 6]` starting at -5. -/
theorem C8_planSingleAxis_witness :
    0 < ([4, 5, 6] : List ℚ).length
      ∧ ((∀ n : ℤ, n ∈ (planSingleAxis [4, 5, 6] (-5)).1
            ↔ (-5) ≤ n ∧ n ≤ (-5) + (([4, 5, 6] : List ℚ).length : ℤ) - 1)
        ∧ (planSingleAxis [4, 5, 6] (-5)).2
            = ((-5) - 2, (-5) + (([4, 5, 6] : List ℚ).length : ℤ) + 2)) :=
  ⟨by decide, C8_planSingleAxis [4, 5, 6] (-5) (by decide)⟩

/-- Claim C9 (implicit): for every `i` drawn from the time-index range
`n_x`, the coefficient lookup index `i - start_x` used by the
decomposition loop and the shifted-response loop is in bounds. -/
theorem C9_lookup_in_bounds (x : List ℚ) (sx : ℤ) (_hx : 0 < x.length) :
    ∀ i ∈ n_x sx x, 0 ≤ i - sx ∧ (i - sx).toNat < x.length := by
  intro i hi
  rw [n_x, mem_arangeZ] at hi
  omega

/-- Witness for C9 at `x = [1, 2, 1]` starting at -4. -/
theorem C9_lookup_in_bounds_witness :
    0 < ([1, 2, 1] : List ℚ).length
      ∧ ∀ i ∈ n_x (-4) ([1, 2, 1] : List ℚ),
          0 ≤ i - (-4) ∧ (i - (-4)).toNat < ([1, 2, 1] : List ℚ).length :=
  ⟨by decide, C9_lookup_in_bounds [1, 2, 1] (-4) (by decide)⟩

/-- Claim C10 (implicit): every time index `n_h0 + i` of every shifted
response lies within the convolution output span
`[start_y, end_y]`, hence within the global tick range
`[global_min, global_max]`. -/
theorem C10_shifted_within_global (x h : List ℚ) (sx sh : ℤ)
    (_hx : 0 < x.length) (_hh : 0 < h.length) :
    ∀ i ∈ n_x sx x, ∀ t ∈ (n_h0 sh h).map (fun m => m + i),
      (start_y sx sh ≤ t ∧ t ≤ end_y x h sx sh)
        ∧ (globalMin sx sh ≤ t ∧ t ≤ globalMax x h sx sh) := by
  intro i hi t ht
  rw [n_x, mem_arangeZ] at hi
  rw [List.mem_map] at ht
  obtain ⟨m, hm, rfl⟩ := ht
  rw [n_h0, mem_arangeZ] at hm
  simp only [start_y, end_y, globalMin, globalMax]
  constructor
  · omega
  · omega

/-- Witness for C10 at `x = [1, 2]` starting at 3 and `h = [4, 5, 6]`
starting at -1. -/
theorem C10_shifted_within_global_witness :
    0 < ([1, 2] : List ℚ).length ∧ 0 < ([4, 5, 6] : List ℚ).length
      ∧ ∀ i ∈ n_x 3 ([1, 2] : List ℚ),
          ∀ t ∈ (n_h0 (-1) ([4, 5, 6] : List ℚ)).map (fun m => m + i),
            (start_y 3 (-1) ≤ t ∧ t ≤ end_y [1, 2] [4, 5, 6] 3 (-1))
              ∧ (globalMin 3 (-1) ≤ t
                ∧ t ≤ globalMax [1, 2] [4, 5, 6] 3 (-1)) :=
  ⟨by decide, by decide,
    C10_shifted_within_global [1, 2] [4, 5, 6] 3 (-1) (by decide) (by decide)⟩

end SignalLab
